import Mathlib

/-!
Shallow embedding of the codeforces2pdf converter core: the HTML→LaTeX
tree renderer and its support functions from `convert_html_to_tex.py` and
`upload_to_polygon.py`.  Pure functions are translated directly; the
stateful resource collector is threaded as explicit state; network and
filesystem effects are abstracted as pure oracles.  String operations are
modelled at the character-list level so that every definition evaluates
by kernel reduction.
-/

set_option maxHeartbeats 1000000

/-- An HTML attribute value as surfaced by BeautifulSoup: either a plain
string, or a multi-valued list of string tokens (as for the class attribute). -/
inductive AttrVal where
  | str : String → AttrVal
  | list : List String → AttrVal
deriving Repr, DecidableEq

/-- A parsed markup node: a text leaf (a NavigableString) or an element
(a Tag) with a name, an attribute map and ordered children. -/
inductive Node where
  | text : String → Node
  | elem : String → List (String × AttrVal) → List Node → Node
deriving Repr

/-- Children of a node (a text leaf has none). -/
def nodeChildren : Node → List Node
  | .text _ => []
  | .elem _ _ cs => cs

/-- Attribute map of a node (a text leaf has none). -/
def nodeAttrs : Node → List (String × AttrVal)
  | .text _ => []
  | .elem _ attrs _ => attrs

/-- Attribute lookup, as Python's `tag.get(key)` (first binding wins). -/
def getAttr (attrs : List (String × AttrVal)) (k : String) : Option AttrVal :=
  (attrs.find? (fun kv => kv.1 = k)).map (fun kv => kv.2)

/-- Whitespace for Python's argumentless `strip`/`rstrip`/`split` (ASCII range). -/
def pyWhitespace (c : Char) : Bool :=
  c = ' ' || c = '\t' || c = '\n' || c = '\r' || c = '\x0b' || c = '\x0c'

/-- Python `s.lower()` (ASCII range). -/
def pyLower (s : String) : String := ⟨s.data.map Char.toLower⟩

/-- Python `s.startswith(p)`. -/
def startsWithStr (s p : String) : Bool := List.isPrefixOf p.data s.data

/-- Python `s.endswith(p)`. -/
def endsWithStr (s p : String) : Bool := List.isSuffixOf p.data s.data

/-- Drop the longest suffix of elements satisfying the predicate. -/
def dropTrailing (p : α → Bool) (l : List α) : List α :=
  (l.reverse.dropWhile p).reverse

/-- Drop the matching run at each end of the list. -/
def dropAround (p : α → Bool) (l : List α) : List α :=
  dropTrailing p (l.dropWhile p)

/-- Python `s.strip()`. -/
def pyStrip (s : String) : String := ⟨dropAround pyWhitespace s.data⟩

/-- Python `s.rstrip()`. -/
def pyRstrip (s : String) : String := ⟨dropTrailing pyWhitespace s.data⟩

/-- Python `s.strip("\n")`. -/
def stripNewlines (s : String) : String := ⟨dropAround (fun c => c = '\n') s.data⟩

/-- Python `s.replace("\r", "")`. -/
def removeCR (s : String) : String := ⟨s.data.filter (fun c => c ≠ '\r')⟩

/-- Occurrence of `needle` as a contiguous run inside a character list. -/
def occursIn (needle : List Char) : List Char → Bool
  | [] => needle.isEmpty
  | c :: t => List.isPrefixOf needle (c :: t) || occursIn needle t

/-- Python's `needle in hay` on strings. -/
def strContains (hay needle : String) : Bool := occursIn needle.data hay.data

/-- The `LATEX_SPECIALS` table of `convert_html_to_tex.py`: the fixed
replacement sequence for each LaTeX control character, `none` elsewhere. -/
def LATEX_SPECIALS (c : Char) : Option String :=
  if c = '\\' then some "\\textbackslash\x7b\x7d"
  else if c = '\x7b' then some "\\\x7b"
  else if c = '\x7d' then some "\\\x7d"
  else if c = '#' then some "\\#"
  else if c = '$' then some "\\$"
  else if c = '%' then some "\\%"
  else if c = '&' then some "\\&"
  else if c = '_' then some "\\_"
  else if c = '^' then some "\\textasciicircum\x7b\x7d"
  else if c = '~' then some "\\textasciitilde\x7b\x7d"
  else none

/-- `escape_tex`: map each character through `LATEX_SPECIALS` (unmapped
characters pass through) and join the pieces. -/
def escape_tex (text : String) : String :=
  ⟨text.data.flatMap (fun c =>
    match LATEX_SPECIALS c with
    | some s => s.data
    | none => [c])⟩

/-- Does one attribute value contain the substring "tex" case-insensitively
(list values item by item, string values directly)? -/
def attrValHasTex : AttrVal → Bool
  | .list items => items.any (fun item => strContains (pyLower item) "tex")
  | .str s => strContains (pyLower s) "tex"

/-- `has_tex_marker`: scan every attribute value of the tag for the
substring "tex", case-insensitively. -/
def has_tex_marker (tag : Node) : Bool :=
  (nodeAttrs tag).any (fun kv => attrValHasTex kv.2)

mutual
/-- All text leaves of a subtree in document order (BeautifulSoup `.strings`). -/
def strings : Node → List String
  | .text s => [s]
  | .elem _ _ cs => stringsOf cs

/-- Text leaves of a forest in document order. -/
def stringsOf : List Node → List String
  | [] => []
  | n :: ns => strings n ++ stringsOf ns
end

/-- Join a list of strings with a separator (Python `sep.join(parts)`). -/
def joinWith (sep : String) (parts : List String) : String :=
  ⟨List.intercalate sep.data (parts.map String.data)⟩

/-- BeautifulSoup `get_text("\n", strip=False)`: all subtree strings joined
with a newline separator. -/
def get_text_nl (t : Node) : String := joinWith "\n" (strings t)

/-- `extract_pre_text`: the text of an optional pre tag, carriage returns
removed and boundary newlines stripped; an absent tag yields the empty string. -/
def extract_pre_text (tag : Option Node) : String :=
  match tag with
  | none => ""
  | some t => stripNewlines (removeCR (get_text_nl t))

/-- Accumulating splitter behind `pySplitWs`. -/
def splitWsAux : List Char → List Char → List (List Char)
  | [], acc => if acc.isEmpty then [] else [acc.reverse]
  | c :: t, acc =>
    if pyWhitespace c then
      if acc.isEmpty then splitWsAux t [] else acc.reverse :: splitWsAux t []
    else splitWsAux t (c :: acc)

/-- Python's argumentless `str.split()`: whitespace-delimited tokens,
empty pieces discarded. -/
def pySplitWs (s : String) : List String :=
  (splitWsAux s.data []).map (fun l => ⟨l⟩)

/-- Python `token.replace(",", ".")`. -/
def commaToDot (s : String) : String :=
  ⟨s.data.map (fun c => if c = ',' then '.' else c)⟩

/-- Python `s.replace(".", "", 1)` at character-list level: remove the
first dot only. -/
def removeFirstDot : List Char → List Char
  | [] => []
  | c :: t => if c = '.' then t else c :: removeFirstDot t

/-- Python `str.isdigit` for ASCII digit strings: nonempty and all digits. -/
def pyIsDigits (l : List Char) : Bool := !l.isEmpty && l.all Char.isDigit

/-- Numeric value of a digit string (most significant first). -/
def digitsToNat (l : List Char) : Nat :=
  l.foldl (fun acc c => acc * 10 + (c.toNat - '0'.toNat)) 0

/-- Digits before the first dot of a decimal token. -/
def intPartOf (l : List Char) : List Char := l.takeWhile (fun c => c ≠ '.')

/-- Digits after the first dot of a decimal token. -/
def fracPartOf (l : List Char) : List Char := (l.dropWhile (fun c => c ≠ '.')).drop 1

/-- Exact value of a decimal token such as "1.5" or "250": the source's
`float(cleaned)`, modelled as a rational. -/
def decimalValue (l : List Char) : ℚ :=
  (digitsToNat (intPartOf l) : ℚ) +
    (digitsToNat (fracPartOf l) : ℚ) / (10 : ℚ) ^ (fracPartOf l).length

/-- Python `int(value * scale)` for the non-negative decimal token `l`:
the integer part of the scaled exact value, computed in `Nat` arithmetic.
`floorScaled_eq` below proves it is the floor of `decimalValue l * scale`. -/
def floorScaled (l : List Char) (scale : Nat) : Nat :=
  ((digitsToNat (intPartOf l) * 10 ^ (fracPartOf l).length + digitsToNat (fracPartOf l))
      * scale) / 10 ^ (fracPartOf l).length

/-- The token-scanning loop of `parse_time_limit`: the first whitespace
token that, once commas are turned into dots and its first dot is removed,
is all digits. -/
def firstNumericToken (t : String) : Option String :=
  (pySplitWs t).find? (fun tok => pyIsDigits (removeFirstDot (commaToDot tok).data))

/-- `parse_time_limit`: value of the first numeric token of the lowercased
text, scaled according to the recognized unit ("millisecond" checked first,
then "second"), `none` otherwise. -/
def parse_time_limit (text : String) : Option Int :=
  let t := pyLower text
  match firstNumericToken t with
  | none => none
  | some tok =>
    if strContains t "millisecond" then some (floorScaled (commaToDot tok).data 1)
    else if strContains t "second" then some (floorScaled (commaToDot tok).data 1000)
    else none

example : parse_time_limit "2 seconds" = some 2000 := by decide
example : parse_time_limit "250 milliseconds" = some 250 := by decide
example : parse_time_limit "1.5 seconds" = some 1500 := by decide
example : parse_time_limit "1,5 Seconds" = some 1500 := by decide
example : parse_time_limit "no numbers here seconds" = none := by decide
example : parse_time_limit "3 furlongs" = none := by decide
example : extract_pre_text (some (.elem "pre" [] [.text "a\r\n", .text "b\n"])) = "a\n\nb" := by decide
example : escape_tex "a_b" = "a\\_b" := by decide
example : has_tex_marker (.elem "span" [("class", .list ["MathJax-tex"])] []) = true := by decide
example : has_tex_marker (.elem "span" [("class", .list ["title"])] []) = false := by decide

/-- A resource collector hook as `render` sees it: current state, the src
attribute and the inline flag give an optional replacement directive and a
new state (`ResourceCollector.add_image` with its effects abstracted). -/
def RC (σ : Type) : Type := σ → Option String → Bool → Option String × σ

/-- Python truthiness of an `Optional[str]`. -/
def truthyOptStr : Option String → Bool
  | some s => s ≠ ""
  | none => false

/-- BeautifulSoup `node.get("class", [])` as iterated by the renderer:
list values item by item; a plain-string value iterates its characters
(Python string iteration); no attribute gives the empty list. -/
def classItems (attrs : List (String × AttrVal)) : List String :=
  match getAttr attrs "class" with
  | some (.list items) => items
  | some (.str s) => s.data.map (fun c => String.mk [c])
  | none => []

/-- The lowercased class list computed at the top of `render` (every
item is a string in this model, so the isinstance guard always passes). -/
def lowerClasses (attrs : List (String × AttrVal)) : List String :=
  (classItems attrs).map pyLower

/-- BeautifulSoup `.string`: the unique string of a single-child chain,
`none` as soon as a node has zero or several children. -/
def nodeString : Node → Option String
  | .text s => some s
  | .elem _ _ [c] => nodeString c
  | .elem _ _ _ => none

/-- The block-level tag set of `clean_html_content`. -/
def block_tags : List String := ["p", "div", "li", "ul", "ol"]

/-- Lines 225–236 of `upload_to_polygon.py`: the formula-wrapping and
block-level tail of `render` for a generic element, given the node's
marker classification, the caller context and the rendered children. -/
def texWrapResult (name : String) (node_is_tex in_tex : Bool) (children_text : String) : String :=
  let content :=
    if node_is_tex && !in_tex then
      let stripped := pyStrip children_text
      if stripped ≠ "" ∧ ¬(startsWithStr stripped "$" = true ∧ endsWithStr stripped "$" = true) then
        "$" ++ stripped ++ "$"
      else stripped
    else if node_is_tex then pyStrip children_text
    else children_text
  if block_tags.contains name then pyStrip content ++ "\n"
  else content

mutual
/-- The recursive `render(node, in_tex)` of `clean_html_content`
(`upload_to_polygon.py`, lines 176–237), with the resource collector
threaded as explicit state. -/
def render (rc : Option (RC σ)) (skipL : List String) : Node → Bool → σ → String × σ
  | .text s, _, st => (s, st)
  | .elem name attrs children, in_tex, st =>
    let classes := lowerClasses attrs
    if !skipL.isEmpty && classes.any (fun c => skipL.contains c) then ("", st)
    else if classes.any (fun c => startsWithStr c "mathjax") then ("", st)
    else if name = "script" then
      (match getAttr attrs "type" with
       | some (.str ty) =>
         if startsWithStr ty "math/" then
           let content := pyStrip ((nodeString (.elem name attrs children)).getD "")
           if content ≠ "" then ("$" ++ content ++ "$", st) else ("", st)
         else ("", st)
       | _ => ("", st))
    else if name = "br" then ("\n", st)
    else if name = "img" then
      let src : Option String :=
        match getAttr attrs "src" with
        | some (.str s) => some s
        | _ => none
      (match rc with
       | none => ("", st)
       | some add =>
         if classes.any (fun c => strContains c "tex-graphics") then
           let r1 := add st src false
           if truthyOptStr r1.1 then (r1.1.getD "", r1.2)
           else if classes.any (fun c => strContains c "tex-formula") then
             let r2 := add r1.2 src true
             if truthyOptStr r2.1 then (r2.1.getD "", r2.2) else ("", r2.2)
           else ("", r1.2)
         else if classes.any (fun c => strContains c "tex-formula") then
           let r1 := add st src true
           if truthyOptStr r1.1 then (r1.1.getD "", r1.2) else ("", r1.2)
         else ("", st))
    else
      let node_is_tex := has_tex_marker (.elem name attrs children)
      let current_in_tex := in_tex || node_is_tex
      if name = "sup" ∨ name = "sub" then
        let marker := if name = "sup" then "^" else "_"
        let r := renderList rc skipL children current_in_tex st
        if current_in_tex then (marker ++ "\x7b" ++ pyStrip r.1 ++ "\x7d", r.2)
        else (r.1, r.2)
      else
        let r := renderList rc skipL children current_in_tex st
        (texWrapResult name node_is_tex in_tex r.1, r.2)

/-- Sequential child rendering: the join of `render(child, t)` over a
forest, threading the collector state left to right. -/
def renderList (rc : Option (RC σ)) (skipL : List String) : List Node → Bool → σ → String × σ
  | [], _, st => ("", st)
  | n :: ns, in_tex, st =>
    let r1 := render rc skipL n in_tex st
    let r2 := renderList rc skipL ns in_tex r1.2
    (r1.1 ++ r2.1, r2.2)
end

/-- Split a character list at every occurrence of `c` (k separators give
k+1 pieces, empty pieces included). -/
def splitOnChar (c : Char) : List Char → List (List Char)
  | [] => [[]]
  | x :: t =>
    let r := splitOnChar c t
    if x = c then [] :: r
    else
      match r with
      | [] => [[x]]
      | h :: rest => (x :: h) :: rest

/-- Python `str.splitlines()` for LF-separated text (the renderer emits
only "\n" line terminators). -/
def splitlinesNl (s : String) : List String :=
  match s.data with
  | [] => []
  | l =>
    let pieces := splitOnChar '\n' l
    ((if l.getLast? = some '\n' then pieces.dropLast else pieces).map (fun p => (⟨p⟩ : String)))

/-- Lines 240–243 of `clean_html_content`: rstrip every line, pop trailing
empty lines, rejoin with newlines, strip the whole. -/
def cleanupLines (raw : String) : String :=
  let lines := (splitlinesNl raw).map pyRstrip
  let lines2 := dropTrailing (fun l => l = "") lines
  pyStrip (joinWith "\n" lines2)

/-- The per-character glyph table of `normalize_math_text` (the
`replacements` dict viewed through `str.translate`): mapped glyphs become
their command sequence, other characters stay themselves. -/
def texGlyph (c : Char) : List Char :=
  if c = '≤' then "\\leq".data
  else if c = '≥' then "\\geq".data
  else if c = '≠' then "\\neq".data
  else if c = '±' then "\\pm".data
  else if c = '×' then "\\times".data
  else if c = '÷' then "\\div".data
  else if c = '·' then "\\cdot".data
  else if c = '⋅' then "\\cdot".data
  else [c]

/-- `normalize_math_text`: `str.translate` over the fixed glyph table. -/
def normalize_math_text (text : String) : String :=
  ⟨text.data.flatMap texGlyph⟩

/-- `clean_html_content`: render the children of an optional section root,
clean up line endings, normalize math glyphs, and return `none` when the
result is empty (`normalized or None`). -/
def clean_html_content (rc : Option (RC σ)) (skip_classes : Option (List String))
    (tag : Option Node) (st : σ) : Option String × σ :=
  match tag with
  | none => (none, st)
  | some t =>
    let skipL := (skip_classes.getD []).map pyLower
    let r := renderList rc skipL (nodeChildren t) false st
    let normalized := normalize_math_text (cleanupLines r.1)
    (if normalized = "" then none else some normalized, r.2)

example :
    (clean_html_content (σ := Unit) none none
      (some (.elem "div" [] [.elem "p" [] [.text "a ≤ b  "], .text "\n\n"])) ()).1 =
      some "a \\leq b" := by decide

example :
    (render (σ := Unit) none [] (.elem "span" [("class", .list ["tex"])] [.text " x+1 "]) false ()).1 =
      "$x+1$" := by decide

example :
    (render (σ := Unit) none [] (.elem "sup" [] [.text "2"]) true ()).1 = "^\x7b2\x7d" := by decide

example :
    (render (σ := Unit) none [] (.elem "sup" [] [.text "2"]) false ()).1 = "2" := by decide

example :
    (render (σ := Unit) none [] (.elem "script" [("type", .str "math/tex")] [.text " x^2 "]) false ()).1 =
      "$x^2$" := by decide

mutual
/-- All descendant nodes satisfying the predicate, in document order, the
node itself excluded — BeautifulSoup `find_all`. -/
def findAll (p : Node → Bool) : Node → List Node
  | .text _ => []
  | .elem _ _ cs => findAllOf p cs

/-- Matching nodes of a forest in document order (each root considered
before its own descendants). -/
def findAllOf (p : Node → Bool) : List Node → List Node
  | [] => []
  | n :: ns => (if p n then [n] else []) ++ findAll p n ++ findAllOf p ns
end

/-- BeautifulSoup `find`: the first matching descendant, if any. -/
def findFirst (p : Node → Bool) (n : Node) : Option Node := (findAll p n).head?

/-- Name filter of `find`/`find_all`. -/
def isNamed (nm : String) : Node → Bool
  | .text _ => false
  | .elem n _ _ => n = nm

/-- The `class_` filter of `find`/`find_all`: the tag carries the given
class token. -/
def hasClass (cls : String) : Node → Bool
  | .text _ => false
  | .elem _ attrs _ => (classItems attrs).contains cls

/-- Filter for `find_all("div", class_=cls)`. -/
def divWithClass (cls : String) (n : Node) : Bool := isNamed "div" n && hasClass cls n

/-- Raw concatenated text of a subtree (`"".join(pre.strings)`). -/
def joinStrings (n : Node) : String := String.join (strings n)

/-- The row-selection step of `render_samples`: the `.sample-test` divs of
the wrapper, or failing that the `tr` rows of its first table. -/
def sampleRows (wrapper : Node) : List Node :=
  let rows := findAll (divWithClass "sample-test") wrapper
  if !rows.isEmpty then rows
  else
    match findFirst (isNamed "table") wrapper with
    | some table => findAll (isNamed "tr") table
    | none => []

/-- One iteration of the pair-extraction loop of `render_samples`:
`none` exactly when the row is skipped by `continue`. -/
def rowPair (row : Node) : Option (String × String) :=
  let inputs := findAll (divWithClass "input") row
  let outputs := findAll (divWithClass "output") row
  if !inputs.isEmpty && !outputs.isEmpty then
    let inp_pre := inputs.head?.bind (findFirst (isNamed "pre"))
    let out_pre := outputs.head?.bind (findFirst (isNamed "pre"))
    some (pyRstrip ((inp_pre.map joinStrings).getD ""),
          pyRstrip ((out_pre.map joinStrings).getD ""))
  else
    match findAll (isNamed "pre") row with
    | c0 :: c1 :: _ => some (pyRstrip (joinStrings c0), pyRstrip (joinStrings c1))
    | _ => none

/-- The pair-accumulating loop of `render_samples` (`pairs.append` with
`continue` on unrecognized rows). -/
def samplePairsLoop (rows : List Node) : List (String × String) :=
  rows.foldl (fun acc row =>
    match rowPair row with
    | some p => acc ++ [p]
    | none => acc) []

/-- The ordered sample pairs extracted by `render_samples` from a problem
node (empty when no samples wrapper is present). -/
def samplePairs (problem : Node) : List (String × String) :=
  match findFirst (divWithClass "sample-tests") problem with
  | none => []
  | some wrapper => samplePairsLoop (sampleRows wrapper)

/-- Newline to LaTeX row break: Python `escaped.replace("\n", "\\\\")`. -/
def newlineToRowBreak (s : String) : String :=
  ⟨s.data.flatMap (fun c => if c = '\n' then ['\\', '\\'] else [c])⟩

/-- `format_cell` of `render_samples`: escape, convert line breaks, wrap
in a minipage (the dedent is the identity on this template). -/
def format_cell (text : String) : String :=
  pyStrip ("\\begin\x7bminipage\x7d[t]\x7b\\linewidth\x7d\\raggedright\\ttfamily\n"
    ++ newlineToRowBreak (escape_tex text)
    ++ "\n\\end\x7bminipage\x7d")

/-- `render_samples`: the rendered two-column samples table, or the empty
string when the wrapper is missing or no row is recognized. -/
def render_samples (problem : Node) : String :=
  match findFirst (divWithClass "sample-tests") problem with
  | none => ""
  | some wrapper =>
    let pairs := samplePairsLoop (sampleRows wrapper)
    if pairs.isEmpty then ""
    else
      let header := ["\\subsubsection*\x7bПримеры\x7d",
        "\\begin\x7blongtable\x7d\x7b|p\x7b0.48\\textwidth\x7d|p\x7b0.48\\textwidth\x7d|\x7d",
        "\\hline",
        "\\textbf\x7bВвод\x7d & \\textbf\x7bВывод\x7d \\\\ \\hline"]
      let rows := pairs.map (fun p => format_cell p.1 ++ " & " ++ format_cell p.2 ++ " \\\\ \\hline")
      joinWith "\n" (header ++ rows ++ ["\\end\x7blongtable\x7d\n"])

example :
    samplePairs (.elem "div" [] [.elem "div" [("class", .list ["sample-tests"])] [
      .elem "div" [("class", .list ["sample-test"])] [
        .elem "div" [("class", .list ["input"])] [.elem "pre" [] [.text "1 2\n"]],
        .elem "div" [("class", .list ["output"])] [.elem "pre" [] [.text "3\n"]]],
      .elem "div" [("class", .list ["sample-test"])] [
        .elem "div" [("class", .list ["input"])] [.elem "pre" [] [.text "5\n"]],
        .elem "div" [("class", .list ["output"])] [.elem "pre" [] [.text "5\n"]]]]]) =
      [("1 2", "3"), ("5", "5")] := by decide

example : render_samples (.elem "div" [] []) = "" := by decide

/-- Byte content of a resource; the bytes themselves are opaque to the
collector logic. -/
abbrev Content := List Nat

/-- The collector's `_resources` dict: an insertion-ordered name→bytes map. -/
abbrev Collector := List (String × Content)

/-- Lines 298–299 of `upload_to_polygon.py`: register the bytes under
`name` unless that name is already present (first writer wins). -/
def store (col : Collector) (name : String) (content : Content) : Collector :=
  if (col.map Prod.fst).contains name then col else col ++ [(name, content)]

/-- `ResourceCollector.resources()`: the registered pairs in
first-registration order (Python dict iteration order). -/
def resources (col : Collector) : List (String × Content) := col

/-- The effectful environment `add_image` runs against — network fetch,
filesystem probe and read, and image decoding — abstracted as pure oracles. -/
structure World where
  fetch : String → Except String Content
  fileExists : String → Bool
  readFile : String → Content
  imageSize : Content → Option (Nat × Nat)

/-- A character allowed inside a URL scheme after its first letter. -/
def schemeChar (c : Char) : Bool := c.isAlphanum || c = '+' || c = '-' || c = '.'

/-- A wellformed URL scheme token: a letter followed by scheme characters. -/
def schemeTokenOk : List Char → Bool
  | [] => false
  | c :: rest => c.isAlpha && rest.all schemeChar

/-- The `scheme` component of `urlparse`: the lowercased token before the
first colon when it is a letter followed by scheme characters, else empty. -/
def urlScheme (s : String) : String :=
  let before := s.data.takeWhile (fun c => c ≠ ':')
  if before.length < s.data.length then
    if schemeTokenOk before then pyLower ⟨before⟩ else ""
  else ""

/-- The `path` component of `urlparse`: strip the scheme, then the
authority after "//", then anything from the first "?" or "#". -/
def urlPath (s : String) : String :=
  let rest := if urlScheme s ≠ "" then (s.data.dropWhile (fun c => c ≠ ':')).drop 1 else s.data
  let rest2 := if rest.take 2 = ['/', '/'] then (rest.drop 2).dropWhile (fun c => c ≠ '/') else rest
  ⟨rest2.takeWhile (fun c => c ≠ '?' && c ≠ '#')⟩

/-- pathlib `Path(p).name`: the final nonempty path component. -/
def pathName (p : String) : String :=
  (((splitOnChar '/' p.data).map (fun l => (⟨l⟩ : String))).filter (fun t => t ≠ "")).getLastD ""

/-- pathlib `base_dir / Path(src)` (an absolute `src` discards the base);
`resolve()` is the identity in this model. -/
def joinPath (base src : String) : String :=
  if startsWithStr src "/" then src else base ++ "/" ++ src

/-- The shared tail of `add_image`: dedup-store the bytes, probe the image
dimensions, and format the inclusion directive. -/
def finishImage (w : World) (col : Collector) (name : String)
    (content : Content) (inline : Bool) : Option String × Collector :=
  let col2 := store col name content
  let include_opts :=
    match w.imageSize content with
    | some wh => "[bb=0 0 " ++ toString wh.1 ++ " " ++ toString wh.2 ++ "]"
    | none => ""
  if inline then
    (some ("\\includegraphics" ++ include_opts ++ "\x7b" ++ name ++ "\x7d"), col2)
  else
    (some ("\n\\begin\x7bcenter\x7d\n  \\includegraphics" ++ include_opts
        ++ "\x7b" ++ name ++ "\x7d\n\\end\x7bcenter\x7d\n"), col2)

/-- `ResourceCollector.add_image` (lines 273–316 of `upload_to_polygon.py`):
resolve the reference remotely or locally, returning `none` and an
unchanged collection on an absent src, a failed fetch or a missing file. -/
def add_image (w : World) (base_dir : String) (col : Collector)
    (src : Option String) (inline : Bool) : Option String × Collector :=
  match src with
  | none => (none, col)
  | some s =>
    if s = "" then (none, col)
    else if urlScheme s = "http" ∨ urlScheme s = "https" then
      let name0 := pathName (urlPath s)
      let name := if name0 ≠ "" then name0 else "image_" ++ toString (col.length + 1) ++ ".png"
      match w.fetch s with
      | .error _ => (none, col)
      | .ok content => finishImage w col name content inline
    else
      let image_path := joinPath base_dir s
      if w.fileExists image_path then finishImage w col (pathName image_path) (w.readFile image_path) inline
      else (none, col)

example :
    add_image ⟨fun _ => .error "boom", fun _ => false, fun _ => [], fun _ => none⟩ "."
      [] (some "http://host/img/a.png") false = (none, []) := by decide

example :
    add_image ⟨fun _ => .ok [1, 2], fun _ => false, fun _ => [], fun _ => some (3, 4)⟩ "."
      [] (some "http://host/img/a.png") true =
      (some "\\includegraphics[bb=0 0 3 4]\x7ba.png\x7d", [("a.png", [1, 2])]) := by decide

example :
    add_image ⟨fun _ => .error "x", fun _ => true, fun p => [p.length], fun _ => none⟩ "base"
      [] (some "pics/b.png") false =
      (some "\n\\begin\x7bcenter\x7d\n  \\includegraphics\x7bb.png\x7d\n\\end\x7bcenter\x7d\n",
        [("b.png", [15])]) := by decide

/-! Helper lemmas about the string primitives. -/

/-- Single-character strings concatenate to the underlying list. -/
theorem mk_append_mk (x y : List Char) : (⟨x⟩ : String) ++ (⟨y⟩ : String) = ⟨x ++ y⟩ := rfl

theorem flatMap_id_of_safe (f : Char → List Char) (l : List Char)
    (h : ∀ c ∈ l, f c = [c]) : l.flatMap f = l := by
  induction l with
  | nil => rfl
  | cons c t ih =>
    simp only [List.flatMap_cons, h c (by simp)]
    simp only [List.cons_append, List.nil_append, List.cons.injEq, true_and]
    exact ih (fun d hd => h d (by simp [hd]))

/-- C4: the escaper is total and pure: each of the nine reserved characters
maps to its fixed sequence, escaping distributes over concatenation
(so every other character passes through unchanged, independently), and on
strings free of reserved characters it is the identity. -/
theorem claim_C4 :
    (escape_tex "\\" = "\\textbackslash\x7b\x7d" ∧
     escape_tex "\x7b" = "\\\x7b" ∧
     escape_tex "\x7d" = "\\\x7d" ∧
     escape_tex "#" = "\\#" ∧
     escape_tex "$" = "\\$" ∧
     escape_tex "%" = "\\%" ∧
     escape_tex "&" = "\\&" ∧
     escape_tex "_" = "\\_" ∧
     escape_tex "^" = "\\textasciicircum\x7b\x7d" ∧
     escape_tex "~" = "\\textasciitilde\x7b\x7d") ∧
    (∀ c : Char, LATEX_SPECIALS c = none → escape_tex ⟨[c]⟩ = ⟨[c]⟩) ∧
    (∀ a b : String, escape_tex (a ++ b) = escape_tex a ++ escape_tex b) ∧
    (∀ s : String, (∀ c ∈ s.data, LATEX_SPECIALS c = none) → escape_tex s = s) := by
  refine ⟨by decide, ?_, ?_, ?_⟩
  · intro c hc
    simp [escape_tex, hc]
  · intro a b
    cases a with
    | mk da =>
      cases b with
      | mk db =>
        show escape_tex ⟨da ++ db⟩ = _
        simp only [escape_tex, mk_append_mk, List.flatMap_append]
  · intro s hs
    cases s with
    | mk l =>
      show (⟨l.flatMap _⟩ : String) = ⟨l⟩
      congr 1
      refine flatMap_id_of_safe _ l (fun c hc => ?_)
      simp [hs c hc]

/-- Witness for C4 at a concrete reserved-character-free string. -/
theorem claim_C4_witness : escape_tex "Hello, World 123" = "Hello, World 123" :=
  claim_C4.2.2.2 "Hello, World 123" (by decide)

/-- C2: the marker classifier is true iff some attribute value — plain
string or token list — contains the substring "tex" case-insensitively. -/
theorem claim_C2 (t : Node) :
    has_tex_marker t = true ↔
      ∃ kv ∈ nodeAttrs t,
        (∃ s, kv.2 = AttrVal.str s ∧ strContains (pyLower s) "tex" = true) ∨
        (∃ items, kv.2 = AttrVal.list items ∧
          ∃ item ∈ items, strContains (pyLower item) "tex" = true) := by
  unfold has_tex_marker
  rw [List.any_eq_true]
  constructor
  · rintro ⟨kv, hmem, hval⟩
    refine ⟨kv, hmem, ?_⟩
    cases h2 : kv.2 with
    | str s =>
      rw [h2] at hval
      exact Or.inl ⟨s, rfl, by simpa [attrValHasTex] using hval⟩
    | list items =>
      rw [h2] at hval
      refine Or.inr ⟨items, rfl, ?_⟩
      simpa [attrValHasTex, List.any_eq_true] using hval
  · rintro ⟨kv, hmem, h | h⟩
    · obtain ⟨s, h2, hc⟩ := h
      exact ⟨kv, hmem, by simp [h2, attrValHasTex, hc]⟩
    · obtain ⟨items, h2, item, hmem2, hc⟩ := h
      refine ⟨kv, hmem, ?_⟩
      simp only [h2, attrValHasTex, List.any_eq_true]
      exact ⟨item, hmem2, hc⟩

/-- The trailing run removed by `dropTrailing` satisfies the predicate, and
the list decomposes as the result followed by that run. -/
theorem dropTrailing_decomp (p : α → Bool) (l : List α) :
    ∃ b, (∀ c ∈ b, p c = true) ∧ l = dropTrailing p l ++ b := by
  refine ⟨(l.reverse.takeWhile p).reverse, ?_, ?_⟩
  · intro c hc
    rw [List.mem_reverse] at hc
    exact List.mem_takeWhile_imp hc
  · unfold dropTrailing
    conv_lhs => rw [← l.reverse_reverse, ← List.takeWhile_append_dropWhile p l.reverse]
    rw [List.reverse_append]

/-- The last element surviving `dropTrailing` fails the predicate. -/
theorem dropTrailing_getLast_not (p : α → Bool) (l : List α) :
    ∀ c, (dropTrailing p l).getLast? = some c → p c = false := by
  intro c hc
  unfold dropTrailing at hc
  rw [List.getLast?_reverse] at hc
  have h := List.head?_dropWhile_not p l.reverse
  rw [hc] at h
  exact h

/-- A list decomposes around `dropAround` into a matching run on each side. -/
theorem dropAround_decomp (p : α → Bool) (l : List α) :
    ∃ a b, (∀ c ∈ a, p c = true) ∧ (∀ c ∈ b, p c = true) ∧
      l = a ++ dropAround p l ++ b := by
  obtain ⟨b, hb, hdec⟩ := dropTrailing_decomp p (l.dropWhile p)
  refine ⟨l.takeWhile p, b, ?_, hb, ?_⟩
  · intro c hc
    exact List.mem_takeWhile_imp hc
  · conv_lhs => rw [← List.takeWhile_append_dropWhile p l, hdec]
    rw [List.append_assoc]
    rfl

/-- The first element surviving `dropAround` fails the predicate. -/
theorem dropAround_head_not (p : α → Bool) (l : List α) :
    ∀ c t, dropAround p l = c :: t → p c = false := by
  intro c t h
  obtain ⟨b, _, hdec⟩ := dropTrailing_decomp p (l.dropWhile p)
  have hhead := List.head?_dropWhile_not p l
  rw [hdec] at hhead
  unfold dropAround at h
  rw [h] at hhead
  simpa using hhead

/-- The last element surviving `dropAround` fails the predicate. -/
theorem dropAround_getLast_not (p : α → Bool) (l : List α) :
    ∀ c, (dropAround p l).getLast? = some c → p c = false :=
  dropTrailing_getLast_not p (l.dropWhile p)

/-- C9: `extract_pre_text` is total on an optional tag: an absent tag gives
the empty string; a present tag gives its separator-joined text with every
carriage return removed and a (possibly empty) run of newlines stripped
from each end, internal line breaks intact. -/
theorem claim_C9 (tag : Option Node) :
    (tag = none → extract_pre_text tag = "") ∧
    (∀ t, tag = some t →
      (∀ c ∈ (extract_pre_text tag).data, c ≠ '\r') ∧
      (∃ a b : List Char, (∀ c ∈ a, c = '\n') ∧ (∀ c ∈ b, c = '\n') ∧
        (removeCR (get_text_nl t)).data = a ++ (extract_pre_text tag).data ++ b) ∧
      (∀ c tl, (extract_pre_text tag).data = c :: tl → c ≠ '\n') ∧
      (∀ c, (extract_pre_text tag).data.getLast? = some c → c ≠ '\n')) := by
  constructor
  · rintro rfl
    rfl
  · rintro t rfl
    have hdata : (extract_pre_text (some t)).data =
        dropAround (fun c => c = '\n') (removeCR (get_text_nl t)).data := rfl
    refine ⟨?_, ?_, ?_, ?_⟩
    · intro c hc
      rw [hdata] at hc
      obtain ⟨a, b, _, _, hdec⟩ := dropAround_decomp (fun c => c = '\n') (removeCR (get_text_nl t)).data
      have hmem : c ∈ (removeCR (get_text_nl t)).data := by
        rw [hdec]
        simp [hc]
      have : c ∈ (get_text_nl t).data.filter (fun c => c ≠ '\r') := hmem
      simpa using (List.mem_filter.mp this).2
    · obtain ⟨a, b, ha, hb, hdec⟩ := dropAround_decomp (fun c => c = '\n') (removeCR (get_text_nl t)).data
      refine ⟨a, b, ?_, ?_, by rw [hdata]; exact hdec⟩
      · intro c hc
        simpa using ha c hc
      · intro c hc
        simpa using hb c hc
    · intro c tl h
      rw [hdata] at h
      have := dropAround_head_not (fun c => c = '\n') (removeCR (get_text_nl t)).data c tl h
      simpa using this
    · intro c h
      rw [hdata] at h
      have := dropAround_getLast_not (fun c => c = '\n') (removeCR (get_text_nl t)).data c h
      simpa using this

/-- Witness for C9 at a concrete pre tag. -/
theorem claim_C9_witness :
    (∀ c ∈ (extract_pre_text (some (Node.elem "pre" [] [Node.text "\na\r\nb\n"]))).data, c ≠ '\r') ∧
    extract_pre_text (some (Node.elem "pre" [] [Node.text "\na\r\nb\n"])) = "a\nb" :=
  ⟨((claim_C9 _).2 _ rfl).1, by decide⟩

/-- `floorScaled` computes the floor of the exact scaled decimal value. -/
theorem floorScaled_eq (l : List Char) (scale : Nat) :
    (floorScaled l scale : Int) = Rat.floor (decimalValue l * scale) := by
  show _ = ⌊decimalValue l * (scale : ℚ)⌋
  unfold floorScaled decimalValue
  set a := digitsToNat (intPartOf l) with ha
  set f := digitsToNat (fracPartOf l) with hf
  set k := (fracPartOf l).length with hk
  have h10 : ((10 : ℚ) ^ k) ≠ 0 := by positivity
  have hval : ((a : ℚ) + (f : ℚ) / (10 : ℚ) ^ k) * (scale : ℚ) =
      (((a * 10 ^ k + f) * scale : ℕ) : ℚ) / ((10 ^ k : ℕ) : ℚ) := by
    push_cast
    field_simp
  rw [hval, Rat.floor_natCast_div_natCast]
  exact Int.natCast_div _ _

/-- Unscaled specialization of `floorScaled_eq`. -/
theorem floorScaled_one (l : List Char) :
    (floorScaled l 1 : Int) = Rat.floor (decimalValue l) := by
  rw [floorScaled_eq]
  norm_num

/-- Millisecond-scaling specialization of `floorScaled_eq`. -/
theorem floorScaled_thousand (l : List Char) :
    (floorScaled l 1000 : Int) = Rat.floor (decimalValue l * 1000) := by
  rw [floorScaled_eq]
  norm_num

/-- C10: `parse_time_limit` takes the first numeric token's value,
unscaled when the text contains "millisecond" (checked before "second",
which is also a substring of "millisecond"), multiplied by 1000 when it
contains "second" but not "millisecond", and yields `none` when there is
no numeric token or no recognized unit. -/
theorem claim_C10 (text : String) :
    (firstNumericToken (pyLower text) = none → parse_time_limit text = none) ∧
    (∀ tok, firstNumericToken (pyLower text) = some tok →
      (strContains (pyLower text) "millisecond" = true →
        parse_time_limit text = some (Rat.floor (decimalValue (commaToDot tok).data))) ∧
      (strContains (pyLower text) "millisecond" = false →
        strContains (pyLower text) "second" = true →
        parse_time_limit text = some (Rat.floor (decimalValue (commaToDot tok).data * 1000))) ∧
      (strContains (pyLower text) "millisecond" = false →
        strContains (pyLower text) "second" = false →
        parse_time_limit text = none)) := by
  constructor
  · intro h
    simp only [parse_time_limit]
    rw [h]
  · intro tok htok
    refine ⟨?_, ?_, ?_⟩
    · intro hms
      simp only [parse_time_limit]
      rw [htok]
      simp only [hms, if_true]
      rw [floorScaled_one]
    · intro hms hsec
      simp only [parse_time_limit]
      rw [htok]
      simp only [hms, hsec, Bool.false_eq_true, if_false, if_true]
      rw [floorScaled_thousand]
    · intro hms hsec
      simp only [parse_time_limit]
      rw [htok]
      simp [hms, hsec]

/-- Witness for C10 at concrete header strings. -/
theorem claim_C10_witness :
    parse_time_limit "1.5 seconds" = some (Rat.floor (decimalValue "1.5".data * 1000)) ∧
    parse_time_limit "250 milliseconds" = some (Rat.floor (decimalValue "250".data)) ∧
    parse_time_limit "3 parsecs" = none :=
  ⟨((claim_C10 "1.5 seconds").2 "1.5" (by decide)).2.1 (by decide) (by decide),
   ((claim_C10 "250 milliseconds").2 "250" (by decide)).1 (by decide),
   ((claim_C10 "3 parsecs").2 "3" (by decide)).2.2 (by decide) (by decide)⟩

/-- C6: `add_image` never propagates a failure: an absent or empty src, a
remote fetch error, and a missing local file all yield `none` with the
resource collection unchanged. -/
theorem claim_C6 (w : World) (base_dir : String) (col : Collector) (inline : Bool) :
    (add_image w base_dir col none inline = (none, col)) ∧
    (add_image w base_dir col (some "") inline = (none, col)) ∧
    (∀ s e, (urlScheme s = "http" ∨ urlScheme s = "https") → w.fetch s = .error e →
      add_image w base_dir col (some s) inline = (none, col)) ∧
    (∀ s, s ≠ "" → ¬(urlScheme s = "http" ∨ urlScheme s = "https") →
      w.fileExists (joinPath base_dir s) = false →
      add_image w base_dir col (some s) inline = (none, col)) := by
  refine ⟨rfl, rfl, ?_, ?_⟩
  · intro s e hscheme hfetch
    have hs : s ≠ "" := by
      rintro rfl
      simp [urlScheme] at hscheme
    simp [add_image, hs, hscheme, hfetch]
  · intro s hs hscheme hex
    simp [add_image, hs, hscheme, hex]

/-- Witness for C6: a failing world with a remote and a local reference. -/
theorem claim_C6_witness :
    add_image ⟨fun _ => .error "refused", fun _ => false, fun _ => [], fun _ => none⟩
      "base" [] (some "https://host/a.png") false = (none, []) ∧
    add_image ⟨fun _ => .error "refused", fun _ => false, fun _ => [], fun _ => none⟩
      "base" [] (some "img/a.png") false = (none, []) :=
  ⟨(claim_C6 _ _ _ _).2.2.1 "https://host/a.png" "refused" (Or.inr (by decide)) rfl,
   (claim_C6 _ _ _ _).2.2.2 "img/a.png" (by decide) (by decide) rfl⟩

/-- First-occurrence deduplication of a name sequence (specification-side
description of the collector's key set). -/
def dedupKeepFirst (names : List String) : List String :=
  names.foldl (fun acc n => if acc.contains n then acc else acc ++ [n]) []

theorem store_map_fst (c : Collector) (n : String) (b : Content) :
    (store c n b).map Prod.fst =
      (if (c.map Prod.fst).contains n then c.map Prod.fst else c.map Prod.fst ++ [n]) := by
  unfold store
  split <;> simp_all

theorem fold_store_map_fst (reqs : List (String × Content)) :
    ∀ c : Collector,
      ((reqs.foldl (fun c nb => store c nb.1 nb.2) c).map Prod.fst) =
      ((reqs.map Prod.fst).foldl (fun acc n => if acc.contains n then acc else acc ++ [n])
        (c.map Prod.fst)) := by
  induction reqs with
  | nil => intro c; rfl
  | cons nb rest ih =>
    intro c
    simp only [List.foldl_cons, List.map_cons]
    rw [ih, store_map_fst]

theorem lookup_isSome_eq_contains (c : Collector) (n : String) :
    (List.lookup n c).isSome = (c.map Prod.fst).contains n := by
  induction c with
  | nil => rfl
  | cons kv rest ih =>
    by_cases h : n = kv.1
    · simp [List.lookup, h]
    · have hbeq : (n == kv.1) = false := beq_eq_false_iff_ne.mpr h
      simp [List.lookup, hbeq, ih]

theorem lookup_append_or (l1 l2 : Collector) (n : String) :
    List.lookup n (l1 ++ l2) = (List.lookup n l1).or (List.lookup n l2) := by
  induction l1 with
  | nil => simp
  | cons kv rest ih =>
    by_cases h : n = kv.1
    · simp [List.lookup, h]
    · have hbeq : (n == kv.1) = false := beq_eq_false_iff_ne.mpr h
      simp [List.lookup, hbeq, ih]

theorem store_lookup (c : Collector) (m : String) (b : Content) (n : String) :
    List.lookup n (store c m b) = (List.lookup n c).or (if m = n then some b else none) := by
  unfold store
  split
  · rename_i h
    by_cases hmn : m = n
    · subst hmn
      have hsome : (List.lookup m c).isSome = true := by
        rw [lookup_isSome_eq_contains]
        exact h
      cases hl : List.lookup m c with
      | none => rw [hl] at hsome; simp at hsome
      | some v => simp [hl]
    · simp [hmn]
  · rw [lookup_append_or]
    by_cases hmn : m = n
    · subst hmn
      simp [List.lookup]
    · have hbeq : (n == m) = false := beq_eq_false_iff_ne.mpr (Ne.symm hmn)
      simp [List.lookup, hmn, hbeq]

theorem fold_store_lookup (reqs : List (String × Content)) :
    ∀ (c : Collector) (n : String),
      List.lookup n (reqs.foldl (fun c nb => store c nb.1 nb.2) c) =
        (List.lookup n c).or ((reqs.find? (fun nb => nb.1 == n)).map Prod.snd) := by
  induction reqs with
  | nil => intro c n; simp
  | cons nb rest ih =>
    intro c n
    simp only [List.foldl_cons]
    rw [ih, store_lookup, Option.or_assoc]
    congr 1
    by_cases h : nb.1 = n
    · simp [List.find?_cons, h]
    · simp [List.find?_cons, h]

theorem dkf_go_nodup (names : List String) :
    ∀ acc : List String, acc.Nodup →
      (names.foldl (fun acc n => if acc.contains n then acc else acc ++ [n]) acc).Nodup := by
  induction names with
  | nil => intro acc h; exact h
  | cons n rest ih =>
    intro acc h
    simp only [List.foldl_cons]
    by_cases hc : acc.contains n
    · rw [if_pos hc]
      exact ih acc h
    · rw [if_neg hc]
      refine ih (acc ++ [n]) ?_
      have hmem : n ∉ acc := by simpa using hc
      simp [List.nodup_append, h, hmem]

theorem dkf_go_subset (names : List String) :
    ∀ acc x, x ∈ names.foldl (fun acc n => if acc.contains n then acc else acc ++ [n]) acc →
      x ∈ acc ∨ x ∈ names := by
  induction names with
  | nil =>
    intro acc x h
    exact Or.inl h
  | cons n rest ih =>
    intro acc x h
    simp only [List.foldl_cons] at h
    by_cases hc : acc.contains n
    · rw [if_pos hc] at h
      rcases ih acc x h with h1 | h1
      · exact Or.inl h1
      · exact Or.inr (by simp [h1])
    · rw [if_neg hc] at h
      rcases ih (acc ++ [n]) x h with h1 | h1
      · rcases List.mem_append.mp h1 with h2 | h2
        · exact Or.inl h2
        · exact Or.inr (by simp_all)
      · exact Or.inr (by simp [h1])

theorem finishImage_snd (w : World) (col : Collector) (name : String)
    (content : Content) (inline : Bool) :
    (finishImage w col name content inline).2 = store col name content := by
  simp only [finishImage]
  split <;> rfl

/-- C5: registration is at-most-once per name: the final collection maps
each name to the bytes of the first request carrying it, its key sequence
is the first-occurrence dedup of the requested names (so `resources()`
iterates pairs in first-registration order), its size never exceeds the
number of distinct names, and every `add_image` call changes the
collection by at most one `store`. -/
theorem claim_C5 (reqs : List (String × Content)) :
    ((reqs.foldl (fun c nb => store c nb.1 nb.2) []).map Prod.fst =
        dedupKeepFirst (reqs.map Prod.fst)) ∧
    (∀ n : String,
        List.lookup n (reqs.foldl (fun c nb => store c nb.1 nb.2) []) =
          ((reqs.find? (fun nb => nb.1 == n)).map Prod.snd)) ∧
    (resources (reqs.foldl (fun c nb => store c nb.1 nb.2) []) =
        reqs.foldl (fun c nb => store c nb.1 nb.2) []) ∧
    ((reqs.foldl (fun c nb => store c nb.1 nb.2) []).length ≤
        (reqs.map Prod.fst).dedup.length) ∧
    (∀ (w : World) (base : String) (c : Collector) (src : Option String) (inl : Bool),
        (add_image w base c src inl).2 = c ∨
        ∃ name content, (add_image w base c src inl).2 = store c name content) := by
  refine ⟨fold_store_map_fst reqs [], ?_, rfl, ?_, ?_⟩
  · intro n
    rw [fold_store_lookup reqs [] n]
    simp
  · have hmap := fold_store_map_fst reqs []
    simp only [List.map_nil] at hmap
    have hlen : (reqs.foldl (fun c nb => store c nb.1 nb.2) []).length =
        (dedupKeepFirst (reqs.map Prod.fst)).length := by
      unfold dedupKeepFirst
      rw [← hmap, List.length_map]
    rw [hlen]
    have hnodup : (dedupKeepFirst (reqs.map Prod.fst)).Nodup :=
      dkf_go_nodup (reqs.map Prod.fst) [] List.nodup_nil
    have hsub : dedupKeepFirst (reqs.map Prod.fst) ⊆ (reqs.map Prod.fst).dedup := by
      intro x hx
      rcases dkf_go_subset (reqs.map Prod.fst) [] x hx with h | h
      · simp at h
      · exact List.mem_dedup.mpr h
    exact (List.Nodup.subperm hnodup hsub).length_le
  · intro w base c src inl
    cases src with
    | none => exact Or.inl rfl
    | some s =>
      by_cases hs : s = ""
      · subst hs
        exact Or.inl rfl
      · by_cases hscheme : urlScheme s = "http" ∨ urlScheme s = "https"
        · cases hfetch : w.fetch s with
          | error e =>
            refine Or.inl ?_
            simp [add_image, hs, hscheme, hfetch]
          | ok content =>
            refine Or.inr ⟨(if pathName (urlPath s) ≠ "" then pathName (urlPath s)
              else "image_" ++ toString (c.length + 1) ++ ".png"), content, ?_⟩
            simp only [add_image]
            rw [if_neg hs, if_pos hscheme, hfetch]
            exact finishImage_snd _ _ _ _ _
        · by_cases hex : w.fileExists (joinPath base s)
          · refine Or.inr ⟨pathName (joinPath base s), w.readFile (joinPath base s), ?_⟩
            simp only [add_image]
            rw [if_neg hs, if_neg hscheme, if_pos hex]
            exact finishImage_snd _ _ _ _ _
          · refine Or.inl ?_
            simp only [add_image]
            rw [if_neg hs, if_neg hscheme, if_neg hex]

/-- A marker-classified element with no children: its trimmed rendered
children text is empty, so the source returns it unwrapped. -/
def c1Node : Node := .elem "span" [("class", .list ["tex"])] []

/-- Counterexample to C1 as stated: `c1Node` is marker-classified, its
rendered-children text trims to the empty string — which does not begin
and end with the dollar delimiter — yet `render` returns the empty string
rather than a wrapped pair of delimiters. -/
theorem claim_C1_counterexample :
    has_tex_marker c1Node = true ∧
    pyStrip (renderList (σ := Unit) none [] (nodeChildren c1Node) true ()).1 = "" ∧
    startsWithStr (pyStrip "") "$" = false ∧
    (render (σ := Unit) none [] c1Node false ()).1 = "" ∧
    ("" : String) ≠ "$" ++ pyStrip "" ++ "$" := by
  refine ⟨by decide, by decide, by decide, by decide, by decide⟩

/-- C1 as amended: for an element that reaches the generic rendering path
(not script/br/img/sup/sub, not suppressed by the skip set or a mathjax
class) and is marker-classified, the children render in formula mode and:
outside formula context, a nonempty trimmed text not already delimited is
wrapped in one pair of dollars, while an already-delimited or empty
trimmed text is returned bare; inside formula context the trimmed text is
returned bare; block-level names then append one newline. -/
theorem claim_C1_amended {σ : Type} (rc : Option (RC σ)) (skipL : List String)
    (name : String) (attrs : List (String × AttrVal)) (children : List Node)
    (in_tex : Bool) (st : σ)
    (h1 : (!skipL.isEmpty && (lowerClasses attrs).any (fun c => skipL.contains c)) = false)
    (h2 : (lowerClasses attrs).any (fun c => startsWithStr c "mathjax") = false)
    (h3 : name ≠ "script") (h4 : name ≠ "br") (h5 : name ≠ "img")
    (h6 : ¬(name = "sup" ∨ name = "sub"))
    (htex : has_tex_marker (.elem name attrs children) = true) :
    render rc skipL (.elem name attrs children) in_tex st =
      (let stripped := pyStrip (renderList rc skipL children true st).1
       let inner :=
         if in_tex then stripped
         else if stripped ≠ "" ∧
             ¬(startsWithStr stripped "$" = true ∧ endsWithStr stripped "$" = true) then
           "$" ++ stripped ++ "$"
         else stripped
       (if block_tags.contains name then pyStrip inner ++ "\n" else inner,
        (renderList rc skipL children true st).2)) := by
  rw [render]
  simp only [h1, h2, Bool.false_eq_true, if_false]
  rw [if_neg h3, if_neg h4, if_neg h5, if_neg h6]
  simp only [htex, Bool.or_true]
  cases in_tex with
  | false =>
    simp only [texWrapResult, htex, Bool.not_false, Bool.and_true, if_pos rfl]
    rfl
  | true =>
    simp only [texWrapResult, htex, Bool.not_true, Bool.and_false]
    rfl

/-- Witness for the amended C1: a tex-marked span wrapping plain text. -/
theorem claim_C1_witness :
    render (σ := Unit) none [] (.elem "span" [("class", AttrVal.list ["tex"])] [.text " x+1 "])
      false () = ("$x+1$", ()) := by
  have h := claim_C1_amended (σ := Unit) none [] "span" [("class", AttrVal.list ["tex"])]
    [.text " x+1 "] false () (by decide) (by decide) (by decide) (by decide) (by decide)
    (by decide) (by decide)
  rw [h]
  decide

/-- A superscript node carrying a class that is both mathjax-prefixed and
tex-marked: the renderer suppresses it before the sup/sub rule runs. -/
def c8Node : Node := .elem "sup" [("class", .list ["MathJax-tex"])] [.text "2"]

/-- Counterexample to C8 as stated: `c8Node` is a superscript node whose
own marker classification is formula mode, yet `render` emits the empty
string — no math marker — because the mathjax-class suppression rule
fires first. -/
theorem claim_C8_counterexample :
    has_tex_marker c8Node = true ∧
    (render (σ := Unit) none [] c8Node false ()).1 = "" ∧
    (render (σ := Unit) none [] c8Node true ()).1 = "" ∧
    ("" : String) ≠ "^\x7b2\x7d" := by
  refine ⟨by decide, by decide, by decide, by decide⟩

/-- C8 as amended: for a superscript or subscript node that is not
suppressed by the skip set or a mathjax-prefixed class: when the caller
context or the node's own marker classification is formula mode, the
children render under formula mode and the result carries the math marker
around the trimmed content; otherwise the children render as plain inline
content with no marker and no delimiters. -/
theorem claim_C8_amended {σ : Type} (rc : Option (RC σ)) (skipL : List String)
    (name : String) (attrs : List (String × AttrVal)) (children : List Node)
    (in_tex : Bool) (st : σ)
    (hname : name = "sup" ∨ name = "sub")
    (h1 : (!skipL.isEmpty && (lowerClasses attrs).any (fun c => skipL.contains c)) = false)
    (h2 : (lowerClasses attrs).any (fun c => startsWithStr c "mathjax") = false) :
    render rc skipL (.elem name attrs children) in_tex st =
      (let cit := in_tex || has_tex_marker (.elem name attrs children)
       let r := renderList rc skipL children cit st
       (if cit then (if name = "sup" then "^" else "_") ++ "\x7b" ++ pyStrip r.1 ++ "\x7d"
        else r.1, r.2)) := by
  have h3 : name ≠ "script" := by rcases hname with h | h <;> simp [h]
  have h4 : name ≠ "br" := by rcases hname with h | h <;> simp [h]
  have h5 : name ≠ "img" := by rcases hname with h | h <;> simp [h]
  rw [render]
  simp only [h1, h2, Bool.false_eq_true, if_false]
  rw [if_neg h3, if_neg h4, if_neg h5, if_pos hname]
  cases hcit : (in_tex || has_tex_marker (.elem name attrs children)) with
  | false => simp only [hcit, Bool.false_eq_true, if_false]
  | true => simp only [hcit, if_true]

/-- Witness for the amended C8: a plain superscript in formula context and
the same superscript outside any formula context. -/
theorem claim_C8_witness :
    render (σ := Unit) none [] (.elem "sup" [] [.text "2"]) true () = ("^\x7b2\x7d", ()) ∧
    render (σ := Unit) none [] (.elem "sup" [] [.text "2"]) false () = ("2", ()) := by
  have ht := claim_C8_amended (σ := Unit) none [] "sup" [] [.text "2"] true ()
    (Or.inl rfl) (by decide) (by decide)
  have hf := claim_C8_amended (σ := Unit) none [] "sup" [] [.text "2"] false ()
    (Or.inl rfl) (by decide) (by decide)
  rw [ht, hf]
  constructor
  · decide
  · decide

theorem texGlyph_ne_nil (c : Char) : texGlyph c ≠ [] := by
  unfold texGlyph
  repeat' split
  all_goals simp

theorem texGlyph_mem (c d : Char) (hd : d ∈ texGlyph c) : pyWhitespace d = false ∨ d = c := by
  unfold texGlyph at hd
  repeat' split at hd
  all_goals first
    | (left; fin_cases hd <;> decide)
    | (right; simpa using hd)

theorem flatMap_texGlyph_getLast? (l : List Char) :
    ∀ d, (l.flatMap texGlyph).getLast? = some d →
      ∃ c, l.getLast? = some c ∧ d ∈ texGlyph c := by
  induction l using List.reverseRecOn with
  | nil =>
    intro d hd
    simp at hd
  | append_singleton xs x ih =>
    intro d hd
    rw [List.flatMap_append] at hd
    have hne : [x].flatMap texGlyph ≠ [] := by
      simp only [List.flatMap_cons, List.flatMap_nil, List.append_nil]
      exact texGlyph_ne_nil x
    rw [List.getLast?_append_of_ne_nil _ hne] at hd
    simp only [List.flatMap_cons, List.flatMap_nil, List.append_nil] at hd
    refine ⟨x, by simp, ?_⟩
    exact List.mem_of_mem_getLast? (Option.mem_def.mpr hd)

/-- Glyph normalization keeps a non-whitespace final character. -/
theorem normalize_getLast_not_ws (s : String)
    (h : ∀ c, s.data.getLast? = some c → pyWhitespace c = false) :
    ∀ d, (normalize_math_text s).data.getLast? = some d → pyWhitespace d = false := by
  intro d hd
  obtain ⟨c, hc, hmem⟩ := flatMap_texGlyph_getLast? s.data d hd
  rcases texGlyph_mem c d hmem with h1 | h1
  · exact h1
  · subst h1
    exact h d hc

/-- The cleaned line block ends in a non-whitespace character. -/
theorem cleanupLines_getLast_not_ws (raw : String) :
    ∀ c, (cleanupLines raw).data.getLast? = some c → pyWhitespace c = false := by
  intro c h
  exact dropAround_getLast_not pyWhitespace _ c h

/-- C7: the section driver renders all children of the root, the returned
string (when present) is the glyph-normalized cleanup of that rendering,
ends in a visible character (every trailing blank line removed), is never
the present-but-empty string, and the glyph table rewrites the eight
mathematical glyphs to their commands. -/
theorem claim_C7 {σ : Type} (rc : Option (RC σ)) (skip_classes : Option (List String))
    (t : Node) (st : σ) :
    ((clean_html_content rc skip_classes (some t) st).2 =
      (renderList rc ((skip_classes.getD []).map pyLower) (nodeChildren t) false st).2) ∧
    ((clean_html_content rc skip_classes (some t) st).1 ≠ some "") ∧
    ((clean_html_content rc skip_classes (some t) st).1 = none ↔
      normalize_math_text (cleanupLines
        (renderList rc ((skip_classes.getD []).map pyLower) (nodeChildren t) false st).1) = "") ∧
    (∀ s, (clean_html_content rc skip_classes (some t) st).1 = some s →
      s = normalize_math_text (cleanupLines
        (renderList rc ((skip_classes.getD []).map pyLower) (nodeChildren t) false st).1) ∧
      (∀ c, s.data.getLast? = some c → pyWhitespace c = false)) ∧
    normalize_math_text "≤ ≥ ≠ ± × ÷ · ⋅" =
      "\\leq \\geq \\neq \\pm \\times \\div \\cdot \\cdot" := by
  have key : (clean_html_content rc skip_classes (some t) st).1 =
      (if normalize_math_text (cleanupLines
          (renderList rc ((skip_classes.getD []).map pyLower) (nodeChildren t) false st).1) = ""
        then none
        else some (normalize_math_text (cleanupLines
          (renderList rc ((skip_classes.getD []).map pyLower) (nodeChildren t) false st).1))) := rfl
  refine ⟨rfl, ?_, ?_, ?_, by decide⟩
  · rw [key]
    split
    · exact fun h => Option.noConfusion h
    · rename_i hne
      intro h
      exact hne (Option.some.inj h)
  · rw [key]
    split
    · rename_i he
      exact ⟨fun _ => he, fun _ => rfl⟩
    · rename_i hne
      exact ⟨fun h => Option.noConfusion h, fun h => absurd h hne⟩
  · intro s hs
    rw [key] at hs
    split at hs
    · exact Option.noConfusion hs
    · have hseq := (Option.some.inj hs).symm
      refine ⟨hseq, ?_⟩
      rw [hseq]
      exact normalize_getLast_not_ws _ (cleanupLines_getLast_not_ws _)

/-- Witness for C7 at a concrete section with a glyph and trailing blanks. -/
theorem claim_C7_witness :
    (clean_html_content (σ := Unit) none none
        (some (.elem "div" [] [.text "a ≤ b ", .text "\n\n"])) ()).1 = some "a \\leq b" ∧
    "a \\leq b" = normalize_math_text (cleanupLines
        (renderList (σ := Unit) none [] [Node.text "a ≤ b ", Node.text "\n\n"] false ()).1) ∧
    (∀ c, ("a \\leq b" : String).data.getLast? = some c → pyWhitespace c = false) := by
  refine ⟨by decide, ?_, ?_⟩
  · exact ((claim_C7 (σ := Unit) none none (.elem "div" [] [.text "a ≤ b ", .text "\n\n"]) ()).2.2.2.1
      "a \\leq b" (by decide)).1
  · exact ((claim_C7 (σ := Unit) none none (.elem "div" [] [.text "a ≤ b ", .text "\n\n"]) ()).2.2.2.1
      "a \\leq b" (by decide)).2

/-- A row the extraction loop recognizes: a labeled input div and a
labeled output div, or at least two pre cells. -/
def recognizedRow (row : Node) : Bool :=
  (!(findAll (divWithClass "input") row).isEmpty &&
    !(findAll (divWithClass "output") row).isEmpty) ||
  decide (2 ≤ (findAll (isNamed "pre") row).length)

/-- The raw (untrimmed) input and output cell texts the loop reads from a
row, absent cells giving the empty string. -/
def extractRawTexts (row : Node) : String × String :=
  let inputs := findAll (divWithClass "input") row
  let outputs := findAll (divWithClass "output") row
  if !inputs.isEmpty && !outputs.isEmpty then
    (((inputs.head?.bind (findFirst (isNamed "pre"))).map joinStrings).getD "",
     ((outputs.head?.bind (findFirst (isNamed "pre"))).map joinStrings).getD "")
  else
    ((((findAll (isNamed "pre") row).get? 0).map joinStrings).getD "",
     (((findAll (isNamed "pre") row).get? 1).map joinStrings).getD "")

/-- The rows `render_samples` scans for a problem node. -/
def sampleRowsOfProblem (problem : Node) : List Node :=
  match findFirst (divWithClass "sample-tests") problem with
  | none => []
  | some wrapper => sampleRows wrapper

theorem rowPair_eq_extract (row : Node) :
    rowPair row =
      (if recognizedRow row then
        some (pyRstrip (extractRawTexts row).1, pyRstrip (extractRawTexts row).2)
      else none) := by
  unfold rowPair recognizedRow extractRawTexts
  by_cases hdiv : (!(findAll (divWithClass "input") row).isEmpty &&
      !(findAll (divWithClass "output") row).isEmpty) = true
  · simp only [hdiv, if_true, Bool.true_or, if_pos rfl]
  · simp only [hdiv, Bool.false_or, if_false]
    rw [Bool.not_eq_true] at hdiv
    simp only [hdiv, Bool.false_eq_true, if_false]
    cases hcells : findAll (isNamed "pre") row with
    | nil => simp
    | cons c0 rest =>
      cases rest with
      | nil => simp
      | cons c1 rest2 => simp

theorem samplePairsLoop_go (rows : List Node) :
    ∀ acc : List (String × String),
      rows.foldl (fun acc row =>
        match rowPair row with
        | some p => acc ++ [p]
        | none => acc) acc = acc ++ rows.filterMap rowPair := by
  induction rows with
  | nil => intro acc; simp
  | cons row rest ih =>
    intro acc
    simp only [List.foldl_cons, List.filterMap_cons]
    cases h : rowPair row with
    | none => rw [ih]
    | some p =>
      rw [ih]
      simp

theorem filterMap_rowPair (l : List Node) :
    l.filterMap rowPair =
      (l.filter recognizedRow).map
        (fun row => (pyRstrip (extractRawTexts row).1, pyRstrip (extractRawTexts row).2)) := by
  induction l with
  | nil => rfl
  | cons r t ih =>
    rw [List.filterMap_cons, rowPair_eq_extract r, List.filter_cons]
    by_cases h : recognizedRow r
    · simp [h, ih]
    · simp [h, ih]

/-- C3 as amended: the extraction returns one pair per recognized row, in
source order, each text being the raw cell text with every trailing
whitespace character (in particular trailing blank lines) removed; a
problem whose samples container yields no recognized row renders to the
empty (absent) samples block. -/
theorem claim_C3_amended (problem : Node) :
    (samplePairs problem =
      ((sampleRowsOfProblem problem).filter recognizedRow).map
        (fun row => (pyRstrip (extractRawTexts row).1, pyRstrip (extractRawTexts row).2))) ∧
    ((samplePairs problem).length =
      ((sampleRowsOfProblem problem).filter recognizedRow).length) ∧
    (samplePairs problem = [] → render_samples problem = "") := by
  have hpairs : samplePairs problem =
      ((sampleRowsOfProblem problem).filter recognizedRow).map
        (fun row => (pyRstrip (extractRawTexts row).1, pyRstrip (extractRawTexts row).2)) := by
    unfold samplePairs sampleRowsOfProblem
    cases findFirst (divWithClass "sample-tests") problem with
    | none => simp
    | some wrapper =>
      dsimp only
      unfold samplePairsLoop
      rw [samplePairsLoop_go (sampleRows wrapper) [], List.nil_append]
      exact filterMap_rowPair (sampleRows wrapper)
  refine ⟨hpairs, by rw [hpairs, List.length_map], ?_⟩
  intro hempty
  unfold render_samples
  unfold samplePairs at hempty
  cases hw : findFirst (divWithClass "sample-tests") problem with
  | none => rfl
  | some wrapper =>
    rw [hw] at hempty
    dsimp only at hempty
    simp [hempty]

/-- Witness for the amended C3: a samples container with no recognized row
renders to the empty string. -/
theorem claim_C3_witness :
    render_samples (.elem "div" []
      [.elem "div" [("class", .list ["sample-tests"])]
        [.elem "div" [("class", .list ["sample-test"])] [.text "no cells here"]]]) = "" :=
  (claim_C3_amended _).2.2 (by decide)

/-- The sample row of the C3 counterexample: its input cell text carries a
trailing space and no trailing newline. -/
def c3Row : Node :=
  .elem "div" [("class", .list ["sample-test"])]
    [.elem "div" [("class", .list ["input"])] [.elem "pre" [] [.text "1 2 "]],
     .elem "div" [("class", .list ["output"])] [.elem "pre" [] [.text "3"]]]

/-- The problem tree of the C3 counterexample. -/
def c3Problem : Node :=
  .elem "div" [] [.elem "div" [("class", .list ["sample-tests"])] [c3Row]]

/-- Counterexample to C3 as stated: the raw input text "1 2 " ends in a
space — there is no trailing blank line to trim — yet the extracted pair
carries "1 2": the loop removes every kind of trailing whitespace, not
only a trailing blank line. -/
theorem claim_C3_counterexample :
    sampleRowsOfProblem c3Problem = [c3Row] ∧
    extractRawTexts c3Row = ("1 2 ", "3") ∧
    endsWithStr "1 2 " "\n" = false ∧
    samplePairs c3Problem = [("1 2", "3")] ∧
    ("1 2" : String) ≠ "1 2 " := by
  refine ⟨?_, by decide, by decide, by decide, by decide⟩
  show sampleRowsOfProblem c3Problem = [c3Row]
  rfl
